import Mathlib

/-!
# Verification of the navira data-join layer

This file gives a shallow embedding of the data-join layer of the navira
repository and proves the documented properties about it.

Embedded directly from the TypeScript sources:
* the CSV loader `fetchCsv` and its module-level `CACHE`
  (`src/lib/data/loader.ts`);
* the department aggregation of `SurgeryDensityMap`
  (`src/navira-next/src/components/sections/OverallTrends/SurgeryDensityMap.tsx`).

The choropleth engine proper (boundary resolver, administrative-code
detector, area reconciliation mapper, competitor ranker, coverage
validator, result cache) is described by the repository's documentation
but its implementation is not part of the source tree given here; those
components are modelled from the specification, and each such definition
says so in its doc comment.
-/

namespace Navira

/-! ## CSV loader (`fetchCsv`, from `src/lib/data/loader.ts`)

`fetchCsv` is asynchronous and talks to the network (`fetch`) and to the
Papa Parse library.  We embed it as a pure function over an explicit
environment: the transport outcome (did the HTTP fetch succeed, and with
which body text) and the parser, modelled as an uninterpreted function
from options and text to a parse outcome.  The module-level `CACHE`
object becomes an explicit association list threaded through the call,
and the returned promise becomes an `Except` value (`.error` = promise
rejection, `.ok` = resolution). -/

/-- The `LoadOptions` interface: three optional boolean fields. -/
structure LoadOptions where
  header : Option Bool := some true
  dynamicTyping : Option Bool := some true
  skipEmptyLines : Option Bool := some true
deriving DecidableEq

/-- Outcome of `await fetch(path)` / `response.text()`: either the fetch
threw or returned a non-ok status (both paths throw into the same
`catch` block in the source), or it produced the CSV body text. -/
inductive Transport where
  | failure (msg : String)
  | success (csvText : String)
deriving DecidableEq

/-- Outcome of `Papa.parse(csvText, options)`: the `error` callback, or
the `complete` callback with its (possibly non-empty) warning list and
parsed data rows. -/
inductive ParseOutcome (α : Type) where
  | error (e : String)
  | complete (warnings : List String) (data : List α)

/-- The module-level `CACHE: Record<string, any[]>`, as an association
list from path to parsed rows. -/
abbrev CsvCache (α : Type) := List (String × List α)

/-- `CACHE[path]` lookup. -/
def cacheLookup {α : Type} : CsvCache α → String → Option (List α)
  | [], _ => none
  | e :: rest, path => if e.1 = path then some e.2 else cacheLookup rest path

/-- The observable outcome of one `fetchCsv` call: the settled promise
value, the cache state after the call, and whether an HTTP fetch was
performed during the call. -/
structure FetchCsvResult (α : Type) where
  value : Except String (List α)
  cache : CsvCache α
  fetched : Bool

/-- `fetchCsv` from `src/lib/data/loader.ts`.  If `CACHE[path]` is set
it is returned as-is (no fetch, options unused).  Otherwise the body is
fetched; a transport failure is caught and resolves with `[]` without
touching the cache; a parse error rejects the promise without touching
the cache; a completed parse stores its data under `path` and resolves
with it (warnings are only logged). -/
def fetchCsv {α : Type} (papa : LoadOptions → String → ParseOutcome α)
    (transport : Transport) (cache : CsvCache α) (path : String)
    (options : LoadOptions) : FetchCsvResult α :=
  match cacheLookup cache path with
  | some data => ⟨.ok data, cache, false⟩
  | none =>
    match transport with
    | .failure _ => ⟨.ok [], cache, true⟩
    | .success text =>
      match papa options text with
      | .error e => ⟨.error e, cache, true⟩
      | .complete _ data => ⟨.ok data, (path, data) :: cache, true⟩

theorem cacheLookup_cons_self {α : Type} (cache : CsvCache α) (path : String)
    (data : List α) : cacheLookup ((path, data) :: cache) path = some data := by
  simp [cacheLookup]

/-- C6: the result cache is unchanged by any computation that fails:
after a call whose load (transport) or parse fails, no cache entry is
stored for that key, and the next call with the same key performs the
fetch again instead of serving the failure from the cache. -/
theorem fetchCsv_failure_leaves_cache {α : Type}
    (papa papa₂ : LoadOptions → String → ParseOutcome α) (tr₂ : Transport)
    (cache : CsvCache α) (path : String) (opts opts₂ : LoadOptions)
    (hmiss : cacheLookup cache path = none) :
    (∀ msg : String,
      (fetchCsv papa (.failure msg) cache path opts).cache = cache ∧
      (fetchCsv papa₂ tr₂ (fetchCsv papa (.failure msg) cache path opts).cache
        path opts₂).fetched = true) ∧
    (∀ text e : String, papa opts text = .error e →
      (fetchCsv papa (.success text) cache path opts).cache = cache ∧
      (fetchCsv papa₂ tr₂ (fetchCsv papa (.success text) cache path opts).cache
        path opts₂).fetched = true) := by
  constructor
  · intro msg
    constructor
    · simp [fetchCsv, hmiss]
    · cases tr₂ <;> simp [fetchCsv, hmiss] <;>
        cases papa₂ opts₂ _ <;> simp
  · intro text e hparse
    constructor
    · simp [fetchCsv, hmiss, hparse]
    · cases tr₂ <;> simp [fetchCsv, hmiss, hparse] <;>
        cases papa₂ opts₂ _ <;> simp

/-- Witness for C6 at a concrete environment: empty cache, a parser that
always errors. -/
theorem fetchCsv_failure_leaves_cache_witness :
    (fetchCsv (α := Nat) (fun _ _ => .error "bad") (.failure "down") [] "/data/a.csv"
      {}).cache = [] ∧
    (fetchCsv (α := Nat) (fun _ _ => .error "bad") (.success "x,y") [] "/data/a.csv"
      {}).cache = [] :=
  ⟨((fetchCsv_failure_leaves_cache (fun _ _ => .error "bad") (fun _ _ => .error "bad")
      (.failure "down") [] "/data/a.csv" {} {} rfl).1 "down").1,
   ((fetchCsv_failure_leaves_cache (fun _ _ => .error "bad") (fun _ _ => .error "bad")
      (.failure "down") [] "/data/a.csv" {} {} rfl).2 "x,y" "bad" rfl).1⟩

/-- C8: `fetchCsv` is idempotent per path through its module-level
cache: once a call for a path has completed successfully, any later call
with the same path returns the cached rows without fetching, for every
choice of options, parser behaviour and transport state — in particular
the later call's parse options are ignored. -/
theorem fetchCsv_idempotent {α : Type}
    (papa₁ papa₂ : LoadOptions → String → ParseOutcome α) (tr₂ : Transport)
    (cache : CsvCache α) (path : String) (opts₁ opts₂ : LoadOptions)
    (text : String) (w : List String) (data : List α)
    (hmiss : cacheLookup cache path = none)
    (hparse : papa₁ opts₁ text = .complete w data) :
    (fetchCsv papa₁ (.success text) cache path opts₁).value = .ok data ∧
    fetchCsv papa₂ tr₂ (fetchCsv papa₁ (.success text) cache path opts₁).cache
      path opts₂ =
      ⟨.ok data, (fetchCsv papa₁ (.success text) cache path opts₁).cache, false⟩ := by
  have h1 : fetchCsv papa₁ (.success text) cache path opts₁ =
      ⟨.ok data, (path, data) :: cache, true⟩ := by
    simp [fetchCsv, hmiss, hparse]
  refine ⟨by rw [h1], ?_⟩
  rw [h1]
  simp [fetchCsv, cacheLookup_cons_self]

/-- Witness for C8: after a successful parse of `/data/a.csv`, a second
call with different options and a failing transport still returns the
first call's rows from the cache without fetching. -/
theorem fetchCsv_idempotent_witness :
    fetchCsv (α := Nat) (fun _ _ => .error "ignored") (.failure "down")
        (fetchCsv (α := Nat) (fun _ _ => .complete [] [7, 8])
          (.success "x\n7\n8") [] "/data/a.csv" {}).cache
        "/data/a.csv" { header := some false } =
      ⟨.ok [7, 8],
       (fetchCsv (α := Nat) (fun _ _ => .complete [] [7, 8])
          (.success "x\n7\n8") [] "/data/a.csv" {}).cache, false⟩ :=
  (fetchCsv_idempotent (fun _ _ => .complete [] [7, 8]) (fun _ _ => .error "ignored")
    (.failure "down") [] "/data/a.csv" {} { header := some false }
    "x\n7\n8" [] [7, 8] rfl rfl).2

/-- C9: `fetchCsv` never rejects on a transport failure: when the HTTP
fetch throws or returns a non-ok status (both become `Transport.failure`),
the call resolves with the empty array, leaving the cache untouched —
indistinguishable at the interface from an empty CSV file. -/
theorem fetchCsv_transport_failure_resolves_empty {α : Type}
    (papa : LoadOptions → String → ParseOutcome α) (cache : CsvCache α)
    (path msg : String) (opts : LoadOptions)
    (hmiss : cacheLookup cache path = none) :
    fetchCsv papa (.failure msg) cache path opts = ⟨.ok [], cache, true⟩ := by
  simp [fetchCsv, hmiss]

/-- Witness for C9 at a concrete path and failure message. -/
theorem fetchCsv_transport_failure_resolves_empty_witness :
    fetchCsv (α := Nat) (fun _ _ => .error "unused") (.failure "HTTP 404") []
      "/data/population.csv" {} = ⟨.ok [], [], true⟩ :=
  fetchCsv_transport_failure_resolves_empty (fun _ _ => .error "unused") []
    "/data/population.csv" "HTTP 404" {} rfl

/-! ## Surgery density map department aggregation
(`departmentRatios` in
`src/navira-next/src/components/sections/OverallTrends/SurgeryDensityMap.tsx`)

The `useMemo` body first aggregates surgery counts by department from
the 2024 rows of `hospitalData`.  Postal codes are JavaScript strings;
we embed them as `List Char`, with `String.prototype.startsWith` as
`hasPrefix` and `substring(0, n)` as `List.take n` (both clamp to the
string's length). -/

/-- `s.startsWith(p)` on character lists. -/
def hasPrefix : List Char → List Char → Bool
  | [], _ => true
  | _ :: _, [] => false
  | a :: as, b :: bs => a == b && hasPrefix as bs

theorem hasPrefix_iff_append (p : List Char) :
    ∀ l : List Char, hasPrefix p l = true ↔ ∃ t, l = p ++ t := by
  induction p with
  | nil => intro l; simp [hasPrefix]
  | cons a as ih =>
    intro l
    cases l with
    | nil => simp [hasPrefix]
    | cons b bs =>
      simp only [hasPrefix, Bool.and_eq_true, beq_iff_eq, ih, List.cons_append,
        List.cons.injEq]
      constructor
      · rintro ⟨rfl, t, rfl⟩; exact ⟨t, rfl, rfl⟩
      · rintro ⟨t, rfl, rfl⟩; exact ⟨rfl, t, rfl⟩

/-- The department-code derivation inside the 2024 aggregation loop:
`'97'`/`'98'` prefixes keep three characters, `'201'` becomes `'2A'`,
`'202'` becomes `'2B'`, everything else keeps two characters. -/
def deptOf (cp : List Char) : List Char :=
  if hasPrefix ['9', '7'] cp || hasPrefix ['9', '8'] cp then cp.take 3
  else if hasPrefix ['2', '0', '1'] cp then ['2', 'A']
  else if hasPrefix ['2', '0', '2'] cp then ['2', 'B']
  else cp.take 2

/-- One row of `hospitalData` (`TAB_VOL_HOP_YEAR`), restricted to the
fields the aggregation reads: `annee`, `code_postal` and `n` (the count,
absent fields contributing `0` through `d.n || 0`). -/
structure HospitalRow where
  annee : Option Int
  code_postal : List Char
  n : Option Int

/-- Lookup in the `surgeriesByDept` record, with the source's
`surgeriesByDept[dept] || 0` default. -/
def lookupCount : List (List Char × Int) → List Char → Int
  | [], _ => 0
  | e :: rest, k => if e.1 = k then e.2 else lookupCount rest k

/-- `surgeriesByDept[dept] = v` (JavaScript object assignment). -/
def setEntry : List (List Char × Int) → List Char → Int → List (List Char × Int)
  | [], k, v => [(k, v)]
  | e :: rest, k, v => if e.1 = k then (k, v) :: rest else e :: setEntry rest k v

/-- The body of the `forEach` over 2024 rows: derive the department and,
when it is non-empty, add the row's count to its running total. -/
def addSurgery (m : List (List Char × Int)) (r : HospitalRow) :
    List (List Char × Int) :=
  if deptOf r.code_postal = [] then m
  else setEntry m (deptOf r.code_postal)
    (lookupCount m (deptOf r.code_postal) + r.n.getD 0)

/-- Step 1 of `departmentRatios`: filter `hospitalData` to `annee ===
2024` and accumulate counts by derived department. -/
def surgeriesByDept (rows : List HospitalRow) : List (List Char × Int) :=
  (rows.filter (fun r => r.annee == some 2024)).foldl addSurgery []

theorem lookupCount_setEntry (m : List (List Char × Int)) (k : List Char)
    (v : Int) (k' : List Char) :
    lookupCount (setEntry m k v) k' = if k = k' then v else lookupCount m k' := by
  induction m with
  | nil =>
    by_cases h : k = k' <;> simp [setEntry, lookupCount, h]
  | cons e rest ih =>
    by_cases he : e.1 = k
    · by_cases h : k = k'
      · simp [setEntry, lookupCount, he, h]
      · have h1 : ¬ e.1 = k' := by rw [he]; exact h
        simp [setEntry, lookupCount, he, h, h1]
    · rw [setEntry, if_neg he]
      by_cases h' : e.1 = k'
      · have h2 : ¬ k = k' := fun hk => he (by rw [hk]; exact h')
        simp [lookupCount, h', h2]
      · simp [lookupCount, h', ih]

theorem lookupCount_addSurgery (m : List (List Char × Int)) (r : HospitalRow)
    (dept : List Char) (hd : dept ≠ []) :
    lookupCount (addSurgery m r) dept =
      lookupCount m dept +
        (if deptOf r.code_postal = dept then r.n.getD 0 else 0) := by
  unfold addSurgery
  by_cases h1 : deptOf r.code_postal = []
  · have hne : ¬ deptOf r.code_postal = dept := fun h => hd (h ▸ h1)
    rw [if_pos h1, if_neg hne, add_zero]
  · rw [if_neg h1, lookupCount_setEntry]
    by_cases h2 : deptOf r.code_postal = dept <;> simp [h2]

theorem lookupCount_foldl_addSurgery (l : List HospitalRow) (dept : List Char)
    (hd : dept ≠ []) :
    ∀ m : List (List Char × Int),
      lookupCount (l.foldl addSurgery m) dept =
        lookupCount m dept +
          (l.map (fun r => if deptOf r.code_postal = dept then r.n.getD 0 else 0)).sum := by
  induction l with
  | nil => intro m; simp
  | cons r t ih =>
    intro m
    simp only [List.foldl_cons, List.map_cons, List.sum_cons, ih,
      lookupCount_addSurgery m r dept hd]
    omega

/-- C10: the department-code derivation is a total deterministic
function of the postal-code string with the four stated cases, and the
per-department sum counts exactly the `annee = 2024` rows whose derived
department matches, a missing count field contributing `0`. -/
theorem departmentRatios_aggregation (rows : List HospitalRow)
    (dept : List Char) (hd : dept ≠ []) :
    (∀ cp : List Char,
      ((hasPrefix ['9', '7'] cp || hasPrefix ['9', '8'] cp) = true →
        deptOf cp = cp.take 3) ∧
      (hasPrefix ['2', '0', '1'] cp = true → deptOf cp = ['2', 'A']) ∧
      (hasPrefix ['2', '0', '2'] cp = true → deptOf cp = ['2', 'B']) ∧
      ((hasPrefix ['9', '7'] cp || hasPrefix ['9', '8'] cp ||
          hasPrefix ['2', '0', '1'] cp || hasPrefix ['2', '0', '2'] cp) = false →
        deptOf cp = cp.take 2)) ∧
    lookupCount (surgeriesByDept rows) dept =
      ((rows.filter (fun r => r.annee == some 2024)).map
        (fun r => if deptOf r.code_postal = dept then r.n.getD 0 else 0)).sum := by
  constructor
  · intro cp
    refine ⟨fun h => by simp [deptOf, h], ?_, ?_, ?_⟩
    · intro h
      obtain ⟨t, rfl⟩ := (hasPrefix_iff_append _ cp).mp h
      simp [deptOf, hasPrefix]
    · intro h
      obtain ⟨t, rfl⟩ := (hasPrefix_iff_append _ cp).mp h
      simp [deptOf, hasPrefix]
    · intro h
      simp only [Bool.or_eq_false_iff] at h
      simp [deptOf, h.1.1.1, h.1.1.2, h.1.2, h.2]
  · have h := lookupCount_foldl_addSurgery
      (rows.filter (fun r => r.annee == some 2024)) dept hd []
    simpa [surgeriesByDept, lookupCount] using h

/-- Witness for C10: three rows (one 2023, one 2024 in dept 75 with a
count, one 2024 in dept 75 with a missing count) sum to `12` for
department `75`. -/
theorem departmentRatios_aggregation_witness :
    lookupCount
      (surgeriesByDept
        [⟨some 2023, ['7', '5', '0', '0', '1'], some 5⟩,
         ⟨some 2024, ['7', '5', '0', '0', '1'], some 12⟩,
         ⟨some 2024, ['7', '5', '0', '1', '1'], none⟩])
      ['7', '5'] = 12 := by
  have h := (departmentRatios_aggregation
    [⟨some 2023, ['7', '5', '0', '0', '1'], some 5⟩,
     ⟨some 2024, ['7', '5', '0', '0', '1'], some 12⟩,
     ⟨some 2024, ['7', '5', '0', '1', '1'], none⟩]
    ['7', '5'] (by decide)).2
  rw [h]
  decide

/-! ## Area reconciliation mapper (allocation policies)

Modelled from the spec: the area reconciliation mapper and its two
allocation policies (`even_split`, `no_split`) are part of the
choropleth engine whose implementation is not in the given source tree;
the definitions below follow §4.3 and §6 of the specification.
Allocated counts are real-valued and not rounded during aggregation; we
use `ℚ`, in which the "floating-point epsilon" tolerance is exact. -/

/-- Modelled from the spec: a recruitment record (hospital, postal area
of origin, non-negative patient count). -/
structure RecruitmentRecord where
  hospitalId : String
  postalArea : String
  patientCount : Nat
deriving DecidableEq

/-- Modelled from the spec: the allocation policy selector. -/
inductive AllocationPolicy where
  | even_split
  | no_split
deriving DecidableEq

/-- Modelled from the spec: the administrative codes a postal area maps
to under the postal-area → administrative-code reference relation. -/
def adminCodesFor (rel : List (String × String)) (p : String) : List String :=
  (rel.filter (fun e => e.1 == p)).map Prod.snd

/-- Modelled from the spec: allocation of one record's patient count
onto its mapped administrative codes.  Under `even_split` each of the
`k` codes receives `patientCount / k`; under `no_split` each receives
the full count. -/
def allocateRecord (policy : AllocationPolicy) (rel : List (String × String))
    (r : RecruitmentRecord) : List (String × ℚ) :=
  let codes := adminCodesFor rel r.postalArea
  match policy with
  | .even_split => codes.map (fun c => (c, (r.patientCount : ℚ) / codes.length))
  | .no_split => codes.map (fun c => (c, (r.patientCount : ℚ)))

/-- Modelled from the spec: `allocate(records, referenceRelation,
policy)` concatenates the per-record allocations. -/
def allocate (policy : AllocationPolicy) (rel : List (String × String))
    (records : List RecruitmentRecord) : List (String × ℚ) :=
  records.flatMap (allocateRecord policy rel)

/-- C1: under `even_split`, for a postal area mapped to `k ≥ 1`
administrative codes the allocated counts across those `k` codes sum
exactly to the record's original patient count. -/
theorem even_split_conserves_total (rel : List (String × String))
    (r : RecruitmentRecord)
    (hk : 1 ≤ (adminCodesFor rel r.postalArea).length) :
    ((allocateRecord .even_split rel r).map Prod.snd).sum =
      (r.patientCount : ℚ) := by
  simp only [allocateRecord, List.map_map]
  set codes := adminCodesFor rel r.postalArea with hc
  have hlen : (codes.length : ℚ) ≠ 0 := by
    have : 0 < codes.length := hk
    exact_mod_cast this.ne'
  have hmap : codes.map (Prod.snd ∘ fun c => (c, (r.patientCount : ℚ) / codes.length)) =
      List.replicate codes.length ((r.patientCount : ℚ) / codes.length) := by
    simp [List.eq_replicate_iff, Function.comp]
  rw [hmap, List.sum_replicate, nsmul_eq_mul, mul_div_assoc']
  field_simp

/-- Witness for C1: the spec's example — postal area `97133`, 90
patients, three administrative codes — allocates 30 to each, summing to
90. -/
theorem even_split_conserves_total_witness :
    ((allocateRecord .even_split
        [("97133", "97101"), ("97133", "97102"), ("97133", "97103")]
        ⟨"H1", "97133", 90⟩).map Prod.snd).sum = ((90 : Nat) : ℚ) :=
  even_split_conserves_total
    [("97133", "97101"), ("97133", "97102"), ("97133", "97103")]
    ⟨"H1", "97133", 90⟩ (by decide)

/-! ## Join coverage validator

Modelled from the spec: the coverage validator of §4.5 is part of the
engine whose implementation is not in the given source tree.
`validateCoverage` computes `coverageRatio = matched / (matched +
unmatched)` over `ℚ`, classifies it against the exact 0.90 / 0.05
boundaries, and signals the UNUSABLE case as a hard error (an `.error`
value) instead of returning a report. -/

/-- Modelled from the spec: coverage status classification. -/
inductive CoverageStatus where
  | OK
  | DEGRADED
  | UNUSABLE
deriving DecidableEq

/-- Modelled from the spec: the coverage report returned for usable or
degraded joins. -/
structure CoverageReport where
  matchedCount : Nat
  unmatchedCount : Nat
  coverageRatio : ℚ
  status : CoverageStatus
deriving DecidableEq

/-- Modelled from the spec: exact boundary classification of a coverage
ratio. -/
def classifyCoverage (ratio : ℚ) : CoverageStatus :=
  if 9 / 10 ≤ ratio then .OK
  else if 1 / 20 ≤ ratio then .DEGRADED
  else .UNUSABLE

/-- Modelled from the spec: `validateCoverage` over matched/unmatched
counts; the UNUSABLE classification is surfaced as a hard error rather
than a returned report. -/
def validateCoverage (matched unmatched : Nat) : Except String CoverageReport :=
  let ratio : ℚ := (matched : ℚ) / ((matched : ℚ) + (unmatched : ℚ))
  if classifyCoverage ratio = .UNUSABLE then .error "coverage unusable"
  else .ok ⟨matched, unmatched, ratio, classifyCoverage ratio⟩

/-- C3: `validateCoverage` classifies with exact boundaries — ratio
`≥ 0.90` is OK, `0.05 ≤ ratio < 0.90` is DEGRADED, and ratio `< 0.05`
is a hard error; in particular exactly 90% matched is OK, 89.9% is
DEGRADED, and 4% is a hard error. -/
theorem validateCoverage_boundaries (matched unmatched : Nat) :
    ((9 : ℚ) / 10 ≤ (matched : ℚ) / ((matched : ℚ) + (unmatched : ℚ)) →
      validateCoverage matched unmatched =
        .ok ⟨matched, unmatched,
             (matched : ℚ) / ((matched : ℚ) + (unmatched : ℚ)), .OK⟩) ∧
    ((1 : ℚ) / 20 ≤ (matched : ℚ) / ((matched : ℚ) + (unmatched : ℚ)) →
      (matched : ℚ) / ((matched : ℚ) + (unmatched : ℚ)) < 9 / 10 →
      validateCoverage matched unmatched =
        .ok ⟨matched, unmatched,
             (matched : ℚ) / ((matched : ℚ) + (unmatched : ℚ)), .DEGRADED⟩) ∧
    ((matched : ℚ) / ((matched : ℚ) + (unmatched : ℚ)) < 1 / 20 →
      validateCoverage matched unmatched = .error "coverage unusable") ∧
    validateCoverage 90 10 = .ok ⟨90, 10, 9 / 10, .OK⟩ ∧
    validateCoverage 899 101 = .ok ⟨899, 101, 899 / 1000, .DEGRADED⟩ ∧
    validateCoverage 4 96 = .error "coverage unusable" := by
  refine ⟨?_, ?_, ?_, ?_, ?_, ?_⟩
  · intro h
    have hc : classifyCoverage ((matched : ℚ) / ((matched : ℚ) + (unmatched : ℚ))) =
        .OK := by simp [classifyCoverage, h]
    simp [validateCoverage, hc]
  · intro h1 h2
    have hc : classifyCoverage ((matched : ℚ) / ((matched : ℚ) + (unmatched : ℚ))) =
        .DEGRADED := by
      simp only [classifyCoverage, if_neg (not_le.mpr h2), if_pos h1]
    simp [validateCoverage, hc]
  · intro h
    have hc : classifyCoverage ((matched : ℚ) / ((matched : ℚ) + (unmatched : ℚ))) =
        .UNUSABLE := by
      simp only [classifyCoverage, if_neg (not_le.mpr h),
        if_neg (not_le.mpr (h.trans (by norm_num : (1 : ℚ) / 20 < 9 / 10)))]
    simp [validateCoverage, hc]
  · norm_num [validateCoverage, classifyCoverage]
    simp
  · norm_num [validateCoverage, classifyCoverage]
    simp
  · norm_num [validateCoverage, classifyCoverage]

/-- Witness for C3: 90 matched of 100 classifies OK, via the exact
boundary clause. -/
theorem validateCoverage_boundaries_witness :
    validateCoverage 90 10 =
      .ok ⟨90, 10, (90 : ℚ) / ((90 : ℚ) + (10 : ℚ)), .OK⟩ :=
  (validateCoverage_boundaries 90 10).1 (by norm_num)

/-! ## Result cache with explicit reset

Modelled from the spec: the result cache of §4.6 (memoizing boundary
resolver output keyed by resolved source path + caller-supplied version
tag, with an externally exposed `resetCache`) is part of the engine
whose implementation is not in the given source tree.  Object identity
— "not the same cached instance" — is modelled by tagging every freshly
computed result with a monotonically increasing instance id that is
never reused. -/

/-- A boundary feature: its property map (other attributes are opaque
to the properties we verify). -/
structure BoundaryFeature where
  properties : List (String × String)
deriving DecidableEq

/-- A loaded boundary collection: its ordered features. -/
structure BoundaryCollection where
  features : List BoundaryFeature
deriving DecidableEq

/-- Modelled from the spec: the cache store — entries keyed by
(resolved source path, version tag), each holding the memoized value
together with the instance id of the object when it was computed, plus
the next fresh instance id. -/
structure CacheState where
  entries : List ((String × Nat) × (BoundaryCollection × Nat))
  nextId : Nat
deriving DecidableEq

/-- Modelled from the spec: `resetCache` clears all memoized entries
immediately (instance ids are never reused). -/
def resetCache (s : CacheState) : CacheState :=
  { s with entries := [] }

/-- Cache entry lookup by (path, version tag) key. -/
def cacheFind (s : CacheState) (path : String) (ver : Nat) :
    Option (BoundaryCollection × Nat) :=
  (s.entries.find? (fun e => e.1 == (path, ver))).map Prod.snd

/-- Modelled from the spec: resolving through the cache — a hit returns
the memoized instance unchanged; a miss computes the value, wraps it in
a fresh instance and memoizes it. -/
def resolveCached (compute : String → Nat → BoundaryCollection)
    (s : CacheState) (path : String) (ver : Nat) :
    (BoundaryCollection × Nat) × CacheState :=
  match cacheFind s path ver with
  | some r => (r, s)
  | none =>
    let r := (compute path ver, s.nextId)
    (r, ⟨((path, ver), r) :: s.entries, s.nextId + 1⟩)

/-- C7: `resetCache` clears all memoized entries immediately, and
re-resolving after a reset with unchanged path and version tag returns
a result structurally equal to — but a different instance than — the
pre-reset cached result. -/
theorem resetCache_clears_and_recomputes
    (compute : String → Nat → BoundaryCollection) (path : String) (ver : Nat) :
    (∀ s : CacheState, (resetCache s).entries = []) ∧
    ((resolveCached compute
        (resetCache (resolveCached compute ⟨[], 0⟩ path ver).2) path ver).1.1 =
      (resolveCached compute ⟨[], 0⟩ path ver).1.1) ∧
    ((resolveCached compute
        (resetCache (resolveCached compute ⟨[], 0⟩ path ver).2) path ver).1.2 ≠
      (resolveCached compute ⟨[], 0⟩ path ver).1.2) := by
  refine ⟨fun s => rfl, ?_, ?_⟩ <;>
    simp [resolveCached, resetCache, cacheFind]

/-- Witness for C7: at a concrete compute function, path and version,
the post-reset result carries instance id 1 against the pre-reset id 0,
with equal values. -/
theorem resetCache_clears_and_recomputes_witness :
    (resolveCached (fun _ _ => ⟨[]⟩)
        (resetCache (resolveCached (fun _ _ => ⟨[]⟩) ⟨[], 0⟩ "data/communes.geojson" 1).2)
        "data/communes.geojson" 1).1.1 =
      (resolveCached (fun _ _ => ⟨[]⟩) ⟨[], 0⟩ "data/communes.geojson" 1).1.1 :=
  (resetCache_clears_and_recomputes (fun _ _ => ⟨[]⟩) "data/communes.geojson" 1).2.1

/-! ## Boundary resolver

Modelled from the spec: the boundary resolver of §4.1 is part of the
engine whose implementation is not in the given source tree (the Next.js
caller in `SurgeryDensityMap.tsx` only consumes a fixed boundary file).
The filesystem is modelled as a function from path to outcome; gzip
decompression is part of the per-path loading outcome, and the
gzip-compressed variant appears in the fixed default path list.  A
failure is a returned diagnostic value, never an exception. -/

/-- Modelled from the spec: why a candidate source failed — not found,
not readable, or not a valid feature collection. -/
inductive SourceFailure where
  | notFound
  | notReadable
  | notValidStructure
deriving DecidableEq

/-- Modelled from the spec: the outcome of trying to load one candidate
path (reading the file, transparently gunzipping when needed, and
parsing it as a feature collection). -/
inductive SourceOutcome where
  | loaded (c : BoundaryCollection)
  | failed (r : SourceFailure)
deriving DecidableEq

/-- Whether a candidate source loaded successfully. -/
def SourceOutcome.isLoaded : SourceOutcome → Bool
  | .loaded _ => true
  | .failed _ => false

/-- Modelled from the spec: the fixed list of default relative paths,
including the gzip-compressed variant of the same filename. -/
def defaultBoundaryPaths : List String :=
  ["data/communes.geojson", "data/communes.geojson.gz",
   "data/communes-france.geojson", "data/communes_france.geojson",
   "../data/communes.geojson"]

/-- Modelled from the spec: the ordered candidate list — explicit
override path, externally supplied configuration value,
environment-style override, then the fixed default paths. -/
def candidatePaths (overridePath configValue envValue : Option String) :
    List String :=
  overridePath.toList ++ configValue.toList ++ envValue.toList ++
    defaultBoundaryPaths

/-- Modelled from the spec: walk the candidate list and return the
first source that loads, or a diagnostic accumulating every path tried
with the reason it failed. -/
def resolveFrom (fs : String → SourceOutcome) :
    List String → Except (List (String × SourceFailure)) (String × BoundaryCollection)
  | [] => .error []
  | p :: rest =>
    match fs p with
    | .loaded c => .ok (p, c)
    | .failed r =>
      match resolveFrom fs rest with
      | .ok x => .ok x
      | .error es => .error ((p, r) :: es)

/-- Modelled from the spec: `resolveBoundaries` applied to the ordered
candidate list. -/
def resolveBoundaries (fs : String → SourceOutcome)
    (overridePath configValue envValue : Option String) :
    Except (List (String × SourceFailure)) (String × BoundaryCollection) :=
  resolveFrom fs (candidatePaths overridePath configValue envValue)

theorem resolveFrom_first (fs : String → SourceOutcome) :
    ∀ paths : List String, ∀ p : String,
      paths.find? (fun q => (fs q).isLoaded) = some p →
      ∃ c, fs p = .loaded c ∧ resolveFrom fs paths = .ok (p, c) := by
  intro paths
  induction paths with
  | nil => intro p h; simp at h
  | cons q rest ih =>
    intro p h
    rw [List.find?_cons] at h
    cases hq : fs q with
    | loaded c =>
      rw [hq] at h
      simp only [SourceOutcome.isLoaded, Option.some.injEq] at h
      subst h
      exact ⟨c, hq, by simp [resolveFrom, hq]⟩
    | failed r =>
      rw [hq] at h
      simp only [SourceOutcome.isLoaded] at h
      obtain ⟨c, hc, hres⟩ := ih p h
      exact ⟨c, hc, by simp [resolveFrom, hq, hres]⟩

theorem resolveFrom_all_failed (fs : String → SourceOutcome) :
    ∀ paths : List String,
      paths.find? (fun q => (fs q).isLoaded) = none →
      ∃ es, resolveFrom fs paths = .error es ∧
        es.map Prod.fst = paths ∧ ∀ e ∈ es, fs e.1 = .failed e.2 := by
  intro paths
  induction paths with
  | nil => intro _; exact ⟨[], rfl, rfl, by simp⟩
  | cons q rest ih =>
    intro h
    rw [List.find?_cons] at h
    cases hq : fs q with
    | loaded c =>
      rw [hq] at h
      simp [SourceOutcome.isLoaded] at h
    | failed r =>
      rw [hq] at h
      simp only [SourceOutcome.isLoaded] at h
      obtain ⟨es, hres, hmap, hall⟩ := ih h
      refine ⟨(q, r) :: es, by simp [resolveFrom, hq, hres], by simp [hmap], ?_⟩
      intro e he
      rcases List.mem_cons.mp he with rfl | he'
      · exact hq
      · exact hall e he'

/-- C4: the boundary resolver returns the first candidate source (from
the ordered list: override, configuration, environment override, then
the fixed defaults including the gzip variant) that exists and parses;
when every candidate fails it returns a structured diagnostic listing
every path tried with the reason each failed, instead of raising or
substituting another source. -/
theorem resolveBoundaries_first_or_diagnostic (fs : String → SourceOutcome)
    (overridePath configValue envValue : Option String) :
    (∀ p : String,
      (candidatePaths overridePath configValue envValue).find?
          (fun q => (fs q).isLoaded) = some p →
      ∃ c, fs p = .loaded c ∧
        resolveBoundaries fs overridePath configValue envValue = .ok (p, c)) ∧
    ((candidatePaths overridePath configValue envValue).find?
        (fun q => (fs q).isLoaded) = none →
      ∃ es, resolveBoundaries fs overridePath configValue envValue = .error es ∧
        es.map Prod.fst = candidatePaths overridePath configValue envValue ∧
        ∀ e ∈ es, fs e.1 = .failed e.2) :=
  ⟨fun p hp => resolveFrom_first fs _ p hp,
   fun h => resolveFrom_all_failed fs _ h⟩

/-- Witness for C4: with no overrides and a filesystem where the plain
default is missing but the gzip variant loads, the resolver returns the
gzip variant. -/
theorem resolveBoundaries_first_or_diagnostic_witness :
    ∃ c, (fun p => if p = "data/communes.geojson.gz"
            then SourceOutcome.loaded ⟨[]⟩ else .failed .notFound)
          "data/communes.geojson.gz" = .loaded c ∧
      resolveBoundaries
        (fun p => if p = "data/communes.geojson.gz"
            then SourceOutcome.loaded ⟨[]⟩ else .failed .notFound)
        none none none = .ok ("data/communes.geojson.gz", c) :=
  (resolveBoundaries_first_or_diagnostic
    (fun p => if p = "data/communes.geojson.gz"
        then SourceOutcome.loaded ⟨[]⟩ else .failed .notFound)
    none none none).1 "data/communes.geojson.gz" (by decide)

/-! ## Sorted permutations

A shared helper: two sorted lists that are permutations of each other
are equal, provided the order is antisymmetric on the elements actually
present (a local form of `List.eq_of_perm_of_sorted`, needed because our
orders are only antisymmetric under side conditions such as "all records
concern the same focal hospital"). -/

theorem sorted_perm_eq {α : Type} {r : α → α → Prop} :
    ∀ {l₁ l₂ : List α}, l₁.Perm l₂ → l₁.Sorted r → l₂.Sorted r →
      (∀ a ∈ l₁, ∀ b ∈ l₁, r a b → r b a → a = b) → l₁ = l₂ := by
  intro l₁
  induction l₁ with
  | nil =>
    intro l₂ p _ _ _
    exact (p.symm.eq_nil).symm
  | cons a t ih =>
    intro l₂ p s₁ s₂ anti
    cases l₂ with
    | nil => exact absurd p.eq_nil (by simp)
    | cons b t₂ =>
      have hbmem : b ∈ a :: t := p.mem_iff.mpr (List.mem_cons_self b t₂)
      have hamem : a ∈ b :: t₂ := p.mem_iff.mp (List.mem_cons_self a t)
      have hab : a = b := by
        rcases List.mem_cons.mp hbmem with h | h
        · exact h.symm
        rcases List.mem_cons.mp hamem with h' | h'
        · exact h'
        exact anti a (List.mem_cons_self a t) b hbmem
          (List.rel_of_sorted_cons s₁ b h) (List.rel_of_sorted_cons s₂ a h')
      subst hab
      have ht : t = t₂ := by
        refine ih p.cons_inv s₁.of_cons s₂.of_cons ?_
        intro x hx y hy
        exact anti x (List.mem_cons_of_mem a hx) y (List.mem_cons_of_mem a hy)
      rw [ht]

/-! ## Competitor ranker

Modelled from the spec: the competitor ranker of §4.4 is part of the
engine whose implementation is not in the given source tree.  Records
are ordered by competitor volume descending, ties by competitor total
volume descending, remaining ties by competitor hospital id ascending
(lexicographic on strings), and the top 5 are kept. -/

/-- Modelled from the spec: one competitor relationship row. -/
structure CompetitorRecord where
  hospitalId : String
  competitorHospitalId : String
  competitorVolume : Int
  competitorTotalVolume : Int
deriving DecidableEq

/-- Modelled from the spec: `a` ranks before (or ties with) `b` —
volume descending, then total volume descending, then id ascending. -/
def rankedBefore (a b : CompetitorRecord) : Prop :=
  b.competitorVolume < a.competitorVolume ∨
    (a.competitorVolume = b.competitorVolume ∧
      (b.competitorTotalVolume < a.competitorTotalVolume ∨
        (a.competitorTotalVolume = b.competitorTotalVolume ∧
          a.competitorHospitalId ≤ b.competitorHospitalId)))

instance : DecidableRel rankedBefore := fun a b => by
  unfold rankedBefore; infer_instance

instance : IsTotal CompetitorRecord rankedBefore := by
  constructor
  intro a b
  unfold rankedBefore
  rcases lt_trichotomy a.competitorVolume b.competitorVolume with h1 | h1 | h1
  · exact Or.inr (Or.inl h1)
  · rcases lt_trichotomy a.competitorTotalVolume b.competitorTotalVolume with h2 | h2 | h2
    · exact Or.inr (Or.inr ⟨h1.symm, Or.inl h2⟩)
    · rcases le_total a.competitorHospitalId b.competitorHospitalId with h3 | h3
      · exact Or.inl (Or.inr ⟨h1, Or.inr ⟨h2, h3⟩⟩)
      · exact Or.inr (Or.inr ⟨h1.symm, Or.inr ⟨h2.symm, h3⟩⟩)
    · exact Or.inl (Or.inr ⟨h1, Or.inl h2⟩)
  · exact Or.inl (Or.inl h1)

instance : IsTrans CompetitorRecord rankedBefore := by
  constructor
  intro a b c hab hbc
  unfold rankedBefore at *
  rcases hab with h1 | ⟨h1, h2⟩
  · rcases hbc with h1' | ⟨h1', _⟩
    · exact Or.inl (h1'.trans h1)
    · exact Or.inl (h1' ▸ h1)
  · rcases hbc with h1' | ⟨h1', h2'⟩
    · exact Or.inl (h1 ▸ h1')
    · refine Or.inr ⟨h1.trans h1', ?_⟩
      rcases h2 with h2 | ⟨h2, h3⟩
      · rcases h2' with h2' | ⟨h2', _⟩
        · exact Or.inl (h2'.trans h2)
        · exact Or.inl (h2' ▸ h2)
      · rcases h2' with h2' | ⟨h2', h3'⟩
        · exact Or.inl (h2 ▸ h2')
        · exact Or.inr ⟨h2.trans h2', h3.trans h3'⟩

/-- Modelled from the spec: `rankCompetitors` sorts by the ranking
order and keeps at most the top 5. -/
def rankCompetitors (records : List CompetitorRecord) : List CompetitorRecord :=
  (List.insertionSort rankedBefore records).take 5

/-- C2: `rankCompetitors` returns at most 5 entries, ordered by volume
descending with ties broken by total volume descending and then by
competitor hospital id ascending; for the records of one focal hospital,
every permutation of the input yields the identical output sequence. -/
theorem rankCompetitors_deterministic_top5 (records : List CompetitorRecord)
    (hfocal : ∀ a ∈ records, ∀ b ∈ records, a.hospitalId = b.hospitalId) :
    (rankCompetitors records).length ≤ 5 ∧
    (rankCompetitors records).Pairwise rankedBefore ∧
    (∀ records' : List CompetitorRecord, records'.Perm records →
      rankCompetitors records' = rankCompetitors records) := by
  refine ⟨?_, ?_, ?_⟩
  · simp [rankCompetitors]
  · exact (List.sorted_insertionSort rankedBefore records).take
  · intro records' hperm
    suffices h : List.insertionSort rankedBefore records' =
        List.insertionSort rankedBefore records by
      simp [rankCompetitors, h]
    refine sorted_perm_eq
      ((List.perm_insertionSort rankedBefore records').trans
        (hperm.trans (List.perm_insertionSort rankedBefore records).symm))
      (List.sorted_insertionSort rankedBefore records')
      (List.sorted_insertionSort rankedBefore records) ?_
    intro a ha b hb rab rba
    have ha' : a ∈ records :=
      hperm.mem_iff.mp ((List.perm_insertionSort rankedBefore records').mem_iff.mp ha)
    have hb' : b ∈ records :=
      hperm.mem_iff.mp ((List.perm_insertionSort rankedBefore records').mem_iff.mp hb)
    have hvol : a.competitorVolume = b.competitorVolume := by
      rcases rab with h | ⟨h, _⟩
      · rcases rba with h' | ⟨h', _⟩
        · exact absurd (h.trans h') (lt_irrefl _)
        · exact h'.symm
      · exact h
    have htot : a.competitorTotalVolume = b.competitorTotalVolume := by
      rcases rab with h | ⟨_, h | ⟨h, _⟩⟩
      · exact absurd (hvol ▸ h) (lt_irrefl _)
      · rcases rba with h' | ⟨_, h' | ⟨h', _⟩⟩
        · exact absurd (hvol ▸ h') (lt_irrefl _)
        · exact absurd (h.trans h') (lt_irrefl _)
        · exact h'.symm
      · exact h
    have hid : a.competitorHospitalId = b.competitorHospitalId := by
      rcases rab with h | ⟨_, h | ⟨_, h⟩⟩
      · exact absurd (hvol ▸ h) (lt_irrefl _)
      · exact absurd (htot ▸ h) (lt_irrefl _)
      rcases rba with h' | ⟨_, h' | ⟨_, h'⟩⟩
      · exact absurd (hvol ▸ h') (lt_irrefl _)
      · exact absurd (htot ▸ h') (lt_irrefl _)
      · exact le_antisymm h h'
    cases a; cases b
    simp only [CompetitorRecord.mk.injEq]
    exact ⟨hfocal _ ha' _ hb', hid, hvol, htot⟩

/-- Witness for C2: the spec's tie-breaking example — volumes
`[40, 40, 25, 10, 5]` with total volumes `[100, 90, 100, 50, 10]` — fed
in a shuffled order ranks identically to the original order. -/
theorem rankCompetitors_deterministic_top5_witness :
    rankCompetitors
        [⟨"H", "C3", 25, 100⟩, ⟨"H", "C1", 40, 100⟩, ⟨"H", "C5", 5, 10⟩,
         ⟨"H", "C2", 40, 90⟩, ⟨"H", "C4", 10, 50⟩] =
      rankCompetitors
        [⟨"H", "C1", 40, 100⟩, ⟨"H", "C2", 40, 90⟩, ⟨"H", "C3", 25, 100⟩,
         ⟨"H", "C4", 10, 50⟩, ⟨"H", "C5", 5, 10⟩] :=
  (rankCompetitors_deterministic_top5
    [⟨"H", "C1", 40, 100⟩, ⟨"H", "C2", 40, 90⟩, ⟨"H", "C3", 25, 100⟩,
     ⟨"H", "C4", 10, 50⟩, ⟨"H", "C5", 5, 10⟩]
    (by intro a ha b hb; fin_cases ha <;> fin_cases hb <;> rfl)).2.2
    [⟨"H", "C3", 25, 100⟩, ⟨"H", "C1", 40, 100⟩, ⟨"H", "C5", 5, 10⟩,
     ⟨"H", "C2", 40, 90⟩, ⟨"H", "C4", 10, 50⟩]
    (by decide)

/-! ## Administrative-code detector

Modelled from the spec: the administrative-code detector of §4.2 is
part of the engine whose implementation is not in the given source
tree.  The shape test follows the spec's regular expression
`^(INSEE.*|code(_)?insee|codgeo)$` (case-insensitive); the value check
accepts 5-digit numeric codes `01001`–`99999` and the 2-letter island
variants `2A`/`2B` followed by three digits.  Observed keys are reported
canonically (sorted and deduplicated), so the detector's whole result is
a function of the *set* of features. -/

/-- Numeric value of a 5-digit string of decimal digits. -/
def digitVal (c : Char) : Nat := c.toNat - '0'.toNat

/-- Modelled from the spec: the administrative-code format check —
5-digit numeric in `01001`–`99999`, or `2A`/`2B` followed by three
digits (island exceptions such as `2A001`/`2B001`). -/
def isValidAdminCode (s : String) : Bool :=
  match s.data with
  | [a, b, c, d, e] =>
    if a.isDigit && b.isDigit && c.isDigit && d.isDigit && e.isDigit then
      let v := digitVal a * 10000 + digitVal b * 1000 + digitVal c * 100 +
        digitVal d * 10 + digitVal e
      decide (1001 ≤ v) && decide (v ≤ 99999)
    else
      a == '2' && (b == 'A' || b == 'B') && c.isDigit && d.isDigit && e.isDigit
  | _ => false

/-- Modelled from the spec: the candidate-key shape test, the
case-insensitive pattern `^(INSEE.*|code(_)?insee|codgeo)$` (evaluated
over the key's uppercased characters). -/
def adminKeyShapeTest (s : String) : Bool :=
  let u := s.data.map Char.toUpper
  hasPrefix "INSEE".data u || u == "CODE_INSEE".data ||
    u == "CODEINSEE".data || u == "CODGEO".data

/-- Value of property `k` on a feature, if present. -/
def propValue (f : BoundaryFeature) (k : String) : Option String :=
  (f.properties.find? (fun e => e.1 == k)).map Prod.snd

/-- Whether a feature carries a valid administrative code under key `k`. -/
def featureHasValidCode (f : BoundaryFeature) (k : String) : Bool :=
  match propValue f k with
  | some v => isValidAdminCode v
  | none => false

/-- Modelled from the spec: whether at least 90% of the collection's
features carry a valid administrative code under key `k`. -/
def keyCoverageOk (c : BoundaryCollection) (k : String) : Bool :=
  decide (9 * c.features.length ≤
    10 * c.features.countP (fun f => featureHasValidCode f k))

/-- The property keys observed across the collection's features,
deduplicated and reported in canonical (sorted) order. -/
def observedKeys (c : BoundaryCollection) : List String :=
  List.insertionSort (fun a b : String => a ≤ b)
    ((c.features.flatMap (fun f => f.properties.map Prod.fst)).dedup)

/-- Modelled from the spec: `detectAdminCodeProperty` — among observed
keys passing the shape test, select the one clearing the 90% threshold;
if none does, fail with the list of property keys actually observed. -/
def detectAdminCodeProperty (c : BoundaryCollection) :
    Except (List String) String :=
  match ((observedKeys c).filter adminKeyShapeTest).find?
      (fun k => keyCoverageOk c k) with
  | some k => .ok k
  | none => .error (observedKeys c)

theorem find?_congr {α : Type} (p q : α → Bool) :
    ∀ l : List α, (∀ a ∈ l, p a = q a) → l.find? p = l.find? q := by
  intro l
  induction l with
  | nil => intro _; rfl
  | cons a t ih =>
    intro h
    rw [List.find?_cons, List.find?_cons, h a (List.mem_cons_self a t),
      ih (fun b hb => h b (List.mem_cons_of_mem a hb))]

theorem observedKeys_perm_invariant (c c' : BoundaryCollection)
    (hperm : c.features.Perm c'.features) :
    observedKeys c = observedKeys c' := by
  unfold observedKeys
  refine sorted_perm_eq ?_
    (List.sorted_insertionSort _ _) (List.sorted_insertionSort _ _) ?_
  · exact (List.perm_insertionSort _ _).trans
      (((hperm.flatMap_right (fun f => f.properties.map Prod.fst)).dedup).trans
        (List.perm_insertionSort _ _).symm)
  · intro a _ b _ hab hba
    exact le_antisymm hab hba

theorem keyCoverageOk_perm_invariant (c c' : BoundaryCollection)
    (hperm : c.features.Perm c'.features) (k : String) :
    keyCoverageOk c k = keyCoverageOk c' k := by
  unfold keyCoverageOk
  rw [hperm.length_eq, hperm.countP_eq]

/-- C5: `detectAdminCodeProperty` returns a key only if it passes the
shape test and at least 90% of features carry a valid administrative
code under it; if no candidate key reaches the threshold it fails with
the observed property keys; and the whole result is invariant under the
feature iteration order of the collection. -/
theorem detectAdminCodeProperty_threshold_and_invariant
    (c : BoundaryCollection) :
    (∀ k : String, detectAdminCodeProperty c = .ok k →
      adminKeyShapeTest k = true ∧ keyCoverageOk c k = true ∧
        k ∈ observedKeys c) ∧
    ((∀ k ∈ (observedKeys c).filter adminKeyShapeTest,
        keyCoverageOk c k = false) →
      detectAdminCodeProperty c = .error (observedKeys c)) ∧
    (∀ c' : BoundaryCollection, c.features.Perm c'.features →
      detectAdminCodeProperty c = detectAdminCodeProperty c') := by
  refine ⟨?_, ?_, ?_⟩
  · intro k hk
    unfold detectAdminCodeProperty at hk
    cases hfind : ((observedKeys c).filter adminKeyShapeTest).find?
        (fun k => keyCoverageOk c k) with
    | none => rw [hfind] at hk; exact absurd hk (by simp)
    | some k' =>
      rw [hfind] at hk
      obtain rfl : k' = k := by injection hk
      have hmem := List.mem_of_find?_eq_some hfind
      exact ⟨List.of_mem_filter hmem,
        List.find?_some hfind,
        List.mem_of_mem_filter hmem⟩
  · intro hall
    unfold detectAdminCodeProperty
    rw [List.find?_eq_none.mpr (fun k hk => by simp [hall k hk])]
  · intro c' hperm
    unfold detectAdminCodeProperty
    rw [observedKeys_perm_invariant c c' hperm,
      find?_congr _ _ _
        (fun k _ => keyCoverageOk_perm_invariant c c' hperm k)]

/-- Witness for C5: a two-feature collection keyed by `INSEE_COM` with
valid codes detects `INSEE_COM`, in both feature orders. -/
theorem detectAdminCodeProperty_threshold_and_invariant_witness :
    (adminKeyShapeTest "INSEE_COM" = true ∧
      keyCoverageOk ⟨[⟨[("INSEE_COM", "01001")]⟩, ⟨[("INSEE_COM", "2A001")]⟩]⟩
        "INSEE_COM" = true ∧
      "INSEE_COM" ∈
        observedKeys ⟨[⟨[("INSEE_COM", "01001")]⟩, ⟨[("INSEE_COM", "2A001")]⟩]⟩) ∧
    detectAdminCodeProperty
        ⟨[⟨[("INSEE_COM", "01001")]⟩, ⟨[("INSEE_COM", "2A001")]⟩]⟩ =
      detectAdminCodeProperty
        ⟨[⟨[("INSEE_COM", "2A001")]⟩, ⟨[("INSEE_COM", "01001")]⟩]⟩ :=
  ⟨(detectAdminCodeProperty_threshold_and_invariant
      ⟨[⟨[("INSEE_COM", "01001")]⟩, ⟨[("INSEE_COM", "2A001")]⟩]⟩).1
      "INSEE_COM" (by rfl),
   (detectAdminCodeProperty_threshold_and_invariant
      ⟨[⟨[("INSEE_COM", "01001")]⟩, ⟨[("INSEE_COM", "2A001")]⟩]⟩).2.2
      ⟨[⟨[("INSEE_COM", "2A001")]⟩, ⟨[("INSEE_COM", "01001")]⟩]⟩ (by decide)⟩

end Navira
